import Mathlib

/-!
# Verification of the Dioxus prototype core

Shallow embedding of `src/packages/core/src/virtual_dom.rs` (the lifecycle
scheduler) and `src/packages/web/src/dom.rs` (the edit interpreter and event
name decoding), together with spec-modelled definitions for the parts of the
system the repository uses but does not ship under `src/` (the generational
arena from the `generational_arena` crate, the `Scope` type from
`crate::inner`, and the reconciler, which the spec designs and the source
omits entirely).

The file is organised as definitions first, then theorems.
-/

namespace Dioxus

/-- A generational handle `(slot, generation)` into the Scope arena.
Mirrors `generational_arena::Index` as described by the spec:
equality requires both fields to match. -/
structure ScopeIndex where
  slot : Nat
  gen : Nat
deriving DecidableEq, Repr

/-- Modelled from the spec: `Scope` is defined in `crate::inner`, which is not
under `src/`. The source constructs it as `Scope::new(root, None)`, a render
function plus an optional parent back-reference (spec §3: `component`,
`parent`). The render function is opaque to the scheduler and is modelled as
an abstract token. -/
structure Scope where
  fc : Nat
  parent : Option ScopeIndex
deriving DecidableEq, Repr

/-- One slot of the arena: its current generation counter and its (possibly
absent) occupant. -/
structure Entry where
  gen : Nat
  val : Option Scope
deriving DecidableEq, Repr

/-- Modelled from the spec: the generational arena (the `generational_arena`
crate, not under `src/`), per spec §4.1/§9: a growable slot array with a
per-slot generation counter; vacated slots are reusable, and removal bumps
the slot's generation before the slot becomes reusable. -/
structure Arena where
  slots : List Entry
deriving DecidableEq, Repr

namespace Arena

def empty : Arena := ⟨[]⟩

/-- `get(index)`: succeeds only if the slot is occupied and the stored
generation matches the handle's generation. -/
def get (a : Arena) (i : ScopeIndex) : Option Scope :=
  match a.slots[i.slot]? with
  | some e => if e.gen = i.gen then e.val else none
  | none => none

/-- Index of the first vacated slot, if any. -/
def findFree (a : Arena) : Option Nat :=
  a.slots.findIdx? (fun e => e.val.isNone)

/-- `insert(scope)`: reuse the first vacated slot (keeping its already-bumped
generation), otherwise grow the slot array with a fresh slot at generation 0. -/
def insert (a : Arena) (s : Scope) : Arena × ScopeIndex :=
  match a.findFree with
  | some f =>
    match a.slots[f]? with
    | some e => (⟨a.slots.set f ⟨e.gen, some s⟩⟩, ⟨f, e.gen⟩)
    | none => (⟨a.slots ++ [⟨0, some s⟩]⟩, ⟨a.slots.length, 0⟩)
  | none => (⟨a.slots ++ [⟨0, some s⟩]⟩, ⟨a.slots.length, 0⟩)

/-- `remove(index)`: fails (returns `none`, the model of `DanglingScope`) if
the slot is empty or the generation is stale; on success the slot's
generation is bumped before the slot is vacated. -/
def remove (a : Arena) (i : ScopeIndex) : Option (Arena × Scope) :=
  match a.slots[i.slot]? with
  | some e =>
    if e.gen = i.gen then
      match e.val with
      | some s => some (⟨a.slots.set i.slot ⟨e.gen + 1, none⟩⟩, s)
      | none => none
    else none
  | none => none

end Arena

/-- An arbitrary later operation on the arena: an insertion or a removal.
Used to state that a removed handle stays dead under every subsequent
history of operations. -/
inductive ArenaOp where
  | ins (s : Scope)
  | rem (i : ScopeIndex)
deriving DecidableEq, Repr

namespace Arena

/-- Run one operation (a failed removal leaves the arena unchanged). -/
def applyOp (a : Arena) : ArenaOp → Arena
  | .ins s => (a.insert s).1
  | .rem i =>
    match a.remove i with
    | some (a', _) => a'
    | none => a

/-- Run a sequence of operations. -/
def applyOps (a : Arena) (ops : List ArenaOp) : Arena :=
  ops.foldl applyOp a

/-- A handle is stale when its slot exists but carries a strictly larger
generation counter than the handle. -/
def stale (a : Arena) (i : ScopeIndex) : Prop :=
  ∃ e, a.slots[i.slot]? = some e ∧ i.gen < e.gen

end Arena

/-- The lifecycle event kinds, from `LifecycleType` in
`src/packages/core/src/virtual_dom.rs`. The `Mount` payload's first field is
named `to` in the source (a Lean keyword here, so spelled `dst`). -/
inductive LifecycleType where
  | mount (dst : Option ScopeIndex) (under : Nat)
  | propsChanged
  | mounted
  | removed
  | messaged
deriving DecidableEq, Repr

/-- `LifecycleEvent` from `src/packages/core/src/virtual_dom.rs`. -/
structure LifecycleEvent where
  index : ScopeIndex
  event_type : LifecycleType
deriving DecidableEq, Repr

/-- `LifecycleEvent::mount` from the source. -/
def LifecycleEvent.mount (which : ScopeIndex) (dst : Option ScopeIndex)
    (under : Nat) : LifecycleEvent :=
  ⟨which, .mount dst under⟩

/-- `VirtualDom<P>` from `src/packages/core/src/virtual_dom.rs`: the component
arena, the root index, the event queue (a `Vec` used as a stack), and the
root props. -/
structure VirtualDom (P : Type) where
  components : Arena
  base_scope : ScopeIndex
  event_queue : List LifecycleEvent
  root_props : P

namespace VirtualDom

/-- `VirtualDom::new_with_props`: arena with the base scope inserted, and an
event queue holding a single mount event for it. -/
def new_with_props (root : Nat) (root_props : P) : VirtualDom P :=
  let res := Arena.empty.insert ⟨root, none⟩
  { components := res.1
    base_scope := res.2
    event_queue := [LifecycleEvent.mount res.2 none 0]
    root_props := root_props }

/-- `VirtualDom::new` (root props `()`). -/
def new (root : Nat) : VirtualDom Unit := new_with_props root ()

/-- `VirtualDom::progress`, translated arm by arm. `Vec::pop` takes the last
element of the queue (so the model pops `getLast?` and keeps `dropLast`),
and the pop happens before the arena lookup, so a failed lookup still
consumes the event. The `Mount`, `PropsChanged`, `Mounted` and `Messaged`
arms perform no state change in the source; the `Removed` arm removes
exactly the event's target from the arena. Returns the `Result<(),()>`
together with the mutated state. -/
def progress (vd : VirtualDom P) : Except Unit Unit × VirtualDom P :=
  match vd.event_queue.getLast? with
  | none => (.error (), vd)
  | some ev =>
    let vd1 : VirtualDom P := { vd with event_queue := vd.event_queue.dropLast }
    match vd1.components.get ev.index with
    | none => (.error (), vd1)
    | some _scope =>
      match ev.event_type with
      | .mount _dst _under => (.ok (), vd1)
      | .propsChanged => (.ok (), vd1)
      | .mounted => (.ok (), vd1)
      | .removed =>
        match vd1.components.remove ev.index with
        | some (a2, _) => (.ok (), { vd1 with components := a2 })
        | none => (.ok (), vd1)
      | .messaged => (.ok (), vd1)

/-- `VirtualDom::update_props`: the source body is empty, so the state is
returned unchanged (the new props are dropped on the floor). -/
def update_props (vd : VirtualDom P) (_new_props : P) : VirtualDom P := vd

end VirtualDom

/-- States of a `VirtualDom` reachable from construction through the public
operations of the source (`progress` and `update_props`). -/
inductive Reaches (root : Nat) (p : P) : VirtualDom P → Prop where
  | init : Reaches root p (VirtualDom.new_with_props root p)
  | step {vd : VirtualDom P} : Reaches root p vd →
      Reaches root p (VirtualDom.progress vd).2
  | upd {vd : VirtualDom P} (q : P) : Reaches root p vd →
      Reaches root p (VirtualDom.update_props vd q)

/-- Fixture for the `Removed` claim: a root scope in slot 0, a scope `PS` in
slot 1 (child of the root), a scope `CS` in slot 2 whose `parent` is the
slot-1 scope, and a pending `Removed` event targeting slot 1. -/
def vdRemoved : VirtualDom Nat :=
  { components := ⟨[⟨0, some ⟨1, none⟩⟩,
                    ⟨0, some ⟨2, some ⟨0, 0⟩⟩⟩,
                    ⟨0, some ⟨3, some ⟨1, 0⟩⟩⟩]⟩
    base_scope := ⟨0, 0⟩
    event_queue := [⟨⟨1, 0⟩, .removed⟩]
    root_props := 0 }

/-- Fixture for the error-propagation claims: the freshly constructed
VirtualDom, with its queue replaced by a single event whose target slot does
not exist in the arena. -/
def vdStaleEvent : VirtualDom Nat :=
  { VirtualDom.new_with_props 0 0 with event_queue := [⟨⟨5, 0⟩, .mounted⟩] }

namespace Web

/-- `DomEdit` (declared in `dioxus_core`, consumed here exactly as matched by
`WebsysDom::apply_edits` in `src/packages/web/src/dom.rs`): the sixteen edit
kinds with the payloads read at the call sites. `u64`/`u32` payloads are
`Nat`; the extra `NewEventListener` fields elided by `..` in the source
pattern are summarised by one ignored `scope` token. -/
inductive DomEdit where
  | PushRoot (root : Nat)
  | PopRoot
  | AppendChildren (many : Nat)
  | ReplaceWith (root : Nat) (m : Nat)
  | InsertAfter (root : Nat) (n : Nat)
  | InsertBefore (root : Nat) (n : Nat)
  | Remove (root : Nat)
  | CreateElement (tag : String) (root : Nat)
  | CreateElementNs (tag : String) (root : Nat) (ns : String)
  | CreatePlaceholder (root : Nat)
  | CreateTextNode (text : String) (root : Nat)
  | NewEventListener (event_name : String) (root : Nat) (scope : Nat)
  | RemoveEventListener (root : Nat) (event : String)
  | SetText (root : Nat) (text : String)
  | SetAttribute (root : Nat) (field : String) (value : String) (ns : Option String)
  | RemoveAttribute (root : Nat) (name : String) (ns : Option String)
deriving DecidableEq, Repr

/-- One call into `dioxus_interpreter_js::Interpreter`, with the argument
values passed by `apply_edits`. The `serde_wasm_bindgen::to_value`
conversion of a string is modelled as the string itself, and the shared JS
handler closure (always the same one) is not recorded. -/
inductive InterpCall where
  | PushRoot (root : Nat)
  | PopRoot
  | AppendChildren (many : Nat)
  | ReplaceWith (root : Nat) (m : Nat)
  | InsertAfter (root : Nat) (n : Nat)
  | InsertBefore (root : Nat) (n : Nat)
  | Remove (root : Nat)
  | CreateElement (tag : String) (root : Nat)
  | CreateElementNs (tag : String) (root : Nat) (ns : String)
  | CreatePlaceholder (root : Nat)
  | CreateTextNode (text : String) (root : Nat)
  | NewEventListener (event_name : String) (root : Nat) (bubbles : Bool)
  | RemoveEventListener (root : Nat) (event : String) (bubbles : Bool)
  | SetText (root : Nat) (text : String)
  | SetAttribute (root : Nat) (field : String) (value : String) (ns : Option String)
  | RemoveAttribute (root : Nat) (name : String) (ns : Option String)
deriving DecidableEq, Repr

/-- `WebsysDom::apply_edits`: drain the edit list front to back, dispatching
each edit to one interpreter call. `event_bubbles` is the lookup table from
`dioxus_html` (not under `src/`), abstracted as a function parameter; the
source consults it for both listener edits. -/
def apply_edits (event_bubbles : String → Bool) : List DomEdit → List InterpCall
  | [] => []
  | edit :: rest =>
    (match edit with
     | .PushRoot root => InterpCall.PushRoot root
     | .PopRoot => InterpCall.PopRoot
     | .AppendChildren many => InterpCall.AppendChildren many
     | .ReplaceWith root m => InterpCall.ReplaceWith root m
     | .InsertAfter root n => InterpCall.InsertAfter root n
     | .InsertBefore root n => InterpCall.InsertBefore root n
     | .Remove root => InterpCall.Remove root
     | .CreateElement tag root => InterpCall.CreateElement tag root
     | .CreateElementNs tag root ns => InterpCall.CreateElementNs tag root ns
     | .CreatePlaceholder root => InterpCall.CreatePlaceholder root
     | .CreateTextNode text root => InterpCall.CreateTextNode text root
     | .NewEventListener event_name root _scope =>
       InterpCall.NewEventListener event_name root (event_bubbles event_name)
     | .RemoveEventListener root event =>
       InterpCall.RemoveEventListener root event (event_bubbles event)
     | .SetText root text => InterpCall.SetText root text
     | .SetAttribute root field value ns => InterpCall.SetAttribute root field value ns
     | .RemoveAttribute root name ns => InterpCall.RemoveAttribute root name ns)
    :: apply_edits event_bubbles rest

/-- `event_name_from_typ` from `src/packages/web/src/dom.rs`, arm by arm;
the `panic!` on an unsupported event type is modelled as `none`. -/
def event_name_from_typ (typ : String) : Option String :=
  match typ with
  | "copy" => some "copy"
  | "cut" => some "cut"
  | "paste" => some "paste"
  | "compositionend" => some "compositionend"
  | "compositionstart" => some "compositionstart"
  | "compositionupdate" => some "compositionupdate"
  | "keydown" => some "keydown"
  | "keypress" => some "keypress"
  | "keyup" => some "keyup"
  | "focus" => some "focus"
  | "focusout" => some "focusout"
  | "focusin" => some "focusin"
  | "blur" => some "blur"
  | "change" => some "change"
  | "input" => some "input"
  | "invalid" => some "invalid"
  | "reset" => some "reset"
  | "submit" => some "submit"
  | "click" => some "click"
  | "contextmenu" => some "contextmenu"
  | "doubleclick" => some "doubleclick"
  | "dblclick" => some "dblclick"
  | "drag" => some "drag"
  | "dragend" => some "dragend"
  | "dragenter" => some "dragenter"
  | "dragexit" => some "dragexit"
  | "dragleave" => some "dragleave"
  | "dragover" => some "dragover"
  | "dragstart" => some "dragstart"
  | "drop" => some "drop"
  | "mousedown" => some "mousedown"
  | "mouseenter" => some "mouseenter"
  | "mouseleave" => some "mouseleave"
  | "mousemove" => some "mousemove"
  | "mouseout" => some "mouseout"
  | "mouseover" => some "mouseover"
  | "mouseup" => some "mouseup"
  | "pointerdown" => some "pointerdown"
  | "pointermove" => some "pointermove"
  | "pointerup" => some "pointerup"
  | "pointercancel" => some "pointercancel"
  | "gotpointercapture" => some "gotpointercapture"
  | "lostpointercapture" => some "lostpointercapture"
  | "pointerenter" => some "pointerenter"
  | "pointerleave" => some "pointerleave"
  | "pointerover" => some "pointerover"
  | "pointerout" => some "pointerout"
  | "select" => some "select"
  | "touchcancel" => some "touchcancel"
  | "touchend" => some "touchend"
  | "touchmove" => some "touchmove"
  | "touchstart" => some "touchstart"
  | "scroll" => some "scroll"
  | "wheel" => some "wheel"
  | "animationstart" => some "animationstart"
  | "animationend" => some "animationend"
  | "animationiteration" => some "animationiteration"
  | "transitionend" => some "transitionend"
  | "abort" => some "abort"
  | "canplay" => some "canplay"
  | "canplaythrough" => some "canplaythrough"
  | "durationchange" => some "durationchange"
  | "emptied" => some "emptied"
  | "encrypted" => some "encrypted"
  | "ended" => some "ended"
  | "error" => some "error"
  | "loadeddata" => some "loadeddata"
  | "loadedmetadata" => some "loadedmetadata"
  | "loadstart" => some "loadstart"
  | "pause" => some "pause"
  | "play" => some "play"
  | "playing" => some "playing"
  | "progress" => some "progress"
  | "ratechange" => some "ratechange"
  | "seeked" => some "seeked"
  | "seeking" => some "seeking"
  | "stalled" => some "stalled"
  | "suspend" => some "suspend"
  | "timeupdate" => some "timeupdate"
  | "volumechange" => some "volumechange"
  | "waiting" => some "waiting"
  | "toggle" => some "toggle"
  | _ => none

/-- The event-type strings matched by `event_name_from_typ`, in source
order. -/
def supportedEventNames : List String :=
  ["copy", "cut", "paste", "compositionend", "compositionstart",
   "compositionupdate", "keydown", "keypress", "keyup", "focus", "focusout",
   "focusin", "blur", "change", "input", "invalid", "reset", "submit",
   "click", "contextmenu", "doubleclick", "dblclick", "drag", "dragend",
   "dragenter", "dragexit", "dragleave", "dragover", "dragstart", "drop",
   "mousedown", "mouseenter", "mouseleave", "mousemove", "mouseout",
   "mouseover", "mouseup", "pointerdown", "pointermove", "pointerup",
   "pointercancel", "gotpointercapture", "lostpointercapture",
   "pointerenter", "pointerleave", "pointerover", "pointerout", "select",
   "touchcancel", "touchend", "touchmove", "touchstart", "scroll", "wheel",
   "animationstart", "animationend", "animationiteration", "transitionend",
   "abort", "canplay", "canplaythrough", "durationchange", "emptied",
   "encrypted", "ended", "error", "loadeddata", "loadedmetadata",
   "loadstart", "pause", "play", "playing", "progress", "ratechange",
   "seeked", "seeking", "stalled", "suspend", "timeupdate", "volumechange",
   "waiting", "toggle"]

end Web

namespace Reconciler

/-- Modelled from the spec: the reconciler's input trees. The diff algorithm
is entirely absent from the source (spec §2: it is "stub/omitted in the
source"), so `VirtualNode` follows spec §3: Text, Element (tag, ordered
attribute set, listener set, optional key, ordered children), Component
(scope handle plus type-erased props, modelled as an opaque token),
Fragment, Placeholder. -/
structure Attr where
  name : String
  value : String
deriving DecidableEq, Repr

/-- Modelled from the spec (§3): the virtual node variants. -/
inductive VirtualNode where
  | text (s : String)
  | element (tag : String) (attrs : List Attr) (listeners : List String)
      (key : Option String) (children : List VirtualNode)
  | component (scope : ScopeIndex) (props : Nat)
  | fragment (children : List VirtualNode)
  | placeholder
deriving Repr

/-- Modelled from the spec (§6): the EditOp wire instruction set, enumerated
exactly. -/
inductive EditOp where
  | PushRoot (id : Nat)
  | PopRoot
  | AppendChildren (count : Nat)
  | ReplaceWith (id : Nat) (count : Nat)
  | InsertAfter (id : Nat) (count : Nat)
  | InsertBefore (id : Nat) (count : Nat)
  | Remove (id : Nat)
  | CreateElement (tag : String) (id : Nat)
  | CreateElementNs (tag : String) (id : Nat) (ns : String)
  | CreatePlaceholder (id : Nat)
  | CreateTextNode (text : String) (id : Nat)
  | SetText (id : Nat) (text : String)
  | SetAttribute (id : Nat) (name : String) (value : String) (ns : Option String)
  | RemoveAttribute (id : Nat) (name : String) (ns : Option String)
  | NewEventListener (event_name : String) (id : Nat)
  | RemoveEventListener (id : Nat) (event_name : String)
deriving DecidableEq, Repr

/-- The `element_map` side of the old tree (spec §3): the ElementId assigned
to each structural position of the previous tree, kept as a tree parallel to
the node structure. -/
inductive IdTree where
  | node (id : Nat) (children : List IdTree)
deriving Repr

def IdTree.rootId : IdTree → Nat
  | .node i _ => i

def IdTree.kids : IdTree → List IdTree
  | .node _ cs => cs

def idTreeAt (oids : List IdTree) (j : Nat) : IdTree :=
  (oids[j]?).getD (.node 0 [])

def rootIdAt (oids : List IdTree) (j : Nat) : Nat :=
  (idTreeAt oids j).rootId

/-- The reordering key of a sibling (spec §3: only Element carries an
optional key). -/
def nodeKey : VirtualNode → Option String
  | .element _ _ _ key _ => key
  | _ => none

mutual

/-- Number of ElementIds a freshly created subtree consumes. -/
def countNodes : VirtualNode → Nat
  | .text _ => 1
  | .element _ _ _ _ children => 1 + countNodesList children
  | .component _ _ => 1
  | .fragment children => countNodesList children
  | .placeholder => 1

def countNodesList : List VirtualNode → Nat
  | [] => 0
  | c :: cs => countNodes c + countNodesList cs

end

mutual

/-- Number of root DOM nodes a subtree expands to (fragments are
transparent). -/
def rootCount : VirtualNode → Nat
  | .fragment children => rootCountList children
  | _ => 1

def rootCountList : List VirtualNode → Nat
  | [] => 0
  | c :: cs => rootCount c + rootCountList cs

end

mutual

/-- Modelled from the spec (§4.3): create a fresh subtree, assigning
ElementIds `nid, nid+1, …` in preorder (CreateElement / CreateTextNode /
CreatePlaceholder; a Component boundary materialises as a placeholder until
its own mount pass renders it). -/
def createNode (nid : Nat) : VirtualNode → List EditOp
  | .text s => [.CreateTextNode s nid]
  | .element tag attrs listeners _key children =>
    EditOp.CreateElement tag nid ::
      (attrs.map (fun a => EditOp.SetAttribute nid a.name a.value none) ++
       listeners.map (fun l => EditOp.NewEventListener l nid) ++
       createChildren (nid + 1) children ++
       [EditOp.AppendChildren (rootCountList children)])
  | .component _ _ => [.CreatePlaceholder nid]
  | .fragment children => createChildren nid children
  | .placeholder => [.CreatePlaceholder nid]

def createChildren (nid : Nat) : List VirtualNode → List EditOp
  | [] => []
  | c :: cs => createNode nid c ++ createChildren (nid + countNodes c) cs

end

/-- Modelled from the spec (§4.3): attribute diff by key — removed if the
name is absent from the new set, set if the name is new or its value
changed. -/
def diffAttrs (id : Nat) (old new : List Attr) : List EditOp :=
  (old.filter (fun a => ! new.any (fun b => b.name == a.name))).map
      (fun a => EditOp.RemoveAttribute id a.name none) ++
  (new.filter (fun b => ! old.any (fun a => a.name == b.name && a.value == b.value))).map
      (fun b => EditOp.SetAttribute id b.name b.value none)

/-- Modelled from the spec (§4.3): listener-set diff via
NewEventListener/RemoveEventListener. -/
def diffListeners (id : Nat) (old new : List String) : List EditOp :=
  (old.filter (fun l => ! new.contains l)).map
      (fun l => EditOp.RemoveEventListener id l) ++
  (new.filter (fun l => ! old.contains l)).map
      (fun l => EditOp.NewEventListener l id)

/-- Is the old child at position `j` matched by some new child (by key
identity for keyed children, positionally for unkeyed ones)? -/
def matchedByNew (new : List VirtualNode) (j : Nat) (o : VirtualNode) : Bool :=
  match nodeKey o with
  | some k => new.any (fun n => nodeKey n == some k)
  | none =>
    match new[j]? with
    | some n => nodeKey n == none
    | none => false

/-- Remove edits for the unmatched old children (spec §4.3: unmatched old
children are removed, freeing their ElementIds). -/
def removalEdits (oids : List IdTree) (old new : List VirtualNode) : List EditOp :=
  (old.enum.filter (fun p => ! matchedByNew new p.1 p.2)).map
    (fun p => EditOp.Remove (rootIdAt oids p.1))

/-- `Removed` lifecycle events for unmatched old children that are Component
nodes (spec §4.3). -/
def removalEvents (old new : List VirtualNode) : List LifecycleEvent :=
  (old.enum.filter (fun p => ! matchedByNew new p.1 p.2)).filterMap
    (fun p => match p.2 with
      | VirtualNode.component sc _ => some ⟨sc, LifecycleType.removed⟩
      | _ => none)

/-- Positional candidate: the old child at the same position, accepted when
its key agrees with the new child's key (both `none`, or the same key). -/
def positionalMatch (old : List VirtualNode) (i : Nat) (n : VirtualNode) :
    Option (Nat × VirtualNode) :=
  match old[i]? with
  | some o => if nodeKey o = nodeKey n then some (i, o) else none
  | none => none

/-- Keyed lookup across the whole old list (spec §4.3: keyed children are
matched by key identity across old/new lists). -/
def keyedMatch (old : List VirtualNode) (n : VirtualNode) :
    Option (Nat × VirtualNode) :=
  match nodeKey n with
  | some k =>
    match old.findIdx? (fun c => nodeKey c == some k) with
    | some j =>
      match old[j]? with
      | some o => some (j, o)
      | none => none
    | none => none
  | none => none

/-- Match a new child against the old list: aligned position first (the
common-prefix fast path), then by key identity. Unkeyed children only match
positionally. -/
def matchOld (old : List VirtualNode) (i : Nat) (n : VirtualNode) :
    Option (Nat × VirtualNode) :=
  match positionalMatch old i n with
  | some r => some r
  | none => keyedMatch old n

/-- Unmounting a Component node enqueues a `Removed` event (spec §4.3). -/
def unmountEvents : VirtualNode → List LifecycleEvent
  | .component sc _ => [⟨sc, .removed⟩]
  | _ => []

/-- A newly appearing Component node enqueues a `Mount` event (spec §4.3). -/
def mountEvents : VirtualNode → List LifecycleEvent
  | .component sc _ => [⟨sc, .mount none 0⟩]
  | _ => []

/-- Output of one diff pass: the ordered EditScript, the lifecycle events to
enqueue, and the next fresh ElementId. -/
structure DiffResult where
  edits : List EditOp
  events : List LifecycleEvent
  nextId : Nat
deriving DecidableEq, Repr

/-- A successful `matchOld` always returns a member of the old list. -/
def matchOld_mem {old : List VirtualNode} {i j : Nat} {n o : VirtualNode}
    (h : matchOld old i n = some (j, o)) : o ∈ old := by
  unfold matchOld at h
  split at h
  next r hr =>
    cases h
    unfold positionalMatch at hr
    split at hr
    next o2 he =>
      split at hr
      next =>
        cases hr
        obtain ⟨hlt, heq⟩ := List.getElem?_eq_some.mp he
        exact heq ▸ List.getElem_mem hlt
      next => exact absurd hr (by simp)
    next => exact absurd hr (by simp)
  next hr =>
    unfold keyedMatch at h
    split at h
    next k hk =>
      split at h
      next jf hjf =>
        split at h
        next of hof =>
          cases h
          obtain ⟨hlt, heq⟩ := List.getElem?_eq_some.mp hof
          exact heq ▸ List.getElem_mem hlt
        next => exact absurd h (by simp)
      next => exact absurd h (by simp)
    next => exact absurd h (by simp)

mutual

/-- Modelled from the spec (§4.3): diff one old/new node pair. Same-kind
pairs diff in place (SetText for changed text, attribute/listener diff plus
keyed child diff for same-tag elements, a `PropsChanged` event for a same
scope Component with changed props); any kind, tag or component-identity
mismatch replaces the whole subtree. -/
def diffNode (oid : IdTree) (old new : VirtualNode) (nid : Nat) : DiffResult :=
  match old, new with
  | .text s1, .text s2 =>
    if s1 = s2 then ⟨[], [], nid⟩
    else ⟨[.SetText oid.rootId s2], [], nid⟩
  | .element t1 a1 ls1 _k1 cs1, .element t2 a2 ls2 _k2 cs2 =>
    if t1 = t2 then
      let r := diffChildren oid.kids cs1 cs2 nid
      ⟨diffAttrs oid.rootId a1 a2 ++ diffListeners oid.rootId ls1 ls2 ++ r.edits,
        r.events, r.nextId⟩
    else
      ⟨createNode nid new ++ [.ReplaceWith oid.rootId (rootCount new)],
        unmountEvents old ++ mountEvents new, nid + countNodes new⟩
  | .component sc1 p1, .component sc2 p2 =>
    if sc1 = sc2 then
      if p1 = p2 then ⟨[], [], nid⟩
      else ⟨[], [⟨sc1, .propsChanged⟩], nid⟩
    else
      ⟨createNode nid new ++ [.ReplaceWith oid.rootId (rootCount new)],
        unmountEvents old ++ mountEvents new, nid + countNodes new⟩
  | .fragment cs1, .fragment cs2 => diffChildren oid.kids cs1 cs2 nid
  | .placeholder, .placeholder => ⟨[], [], nid⟩
  | _, _ =>
    ⟨createNode nid new ++ [.ReplaceWith oid.rootId (rootCount new)],
      unmountEvents old ++ mountEvents new, nid + countNodes new⟩
termination_by 2 * (sizeOf old + sizeOf new)
decreasing_by
  all_goals simp_wf
  all_goals omega

/-- Modelled from the spec (§4.3): keyed child-list diff — remove the
unmatched old children, then walk the new children. -/
def diffChildren (oids : List IdTree) (old new : List VirtualNode)
    (nid : Nat) : DiffResult :=
  let w := diffWalk oids old 0 new nid
  ⟨removalEdits oids old new ++ w.edits,
    removalEvents old new ++ w.events, w.nextId⟩
termination_by 2 * (sizeOf old + sizeOf new) + 1
decreasing_by
  all_goals simp_wf
  all_goals omega

/-- Walk the new children left to right: a matched pair is diffed
recursively in place (with a move when it came from a different position);
an unmatched new child is created with fresh ElementIds and inserted
relative to its positional neighbour. -/
def diffWalk (oids : List IdTree) (old : List VirtualNode) (i : Nat)
    (new : List VirtualNode) (nid : Nat) : DiffResult :=
  match new with
  | [] => ⟨[], [], nid⟩
  | n :: rest =>
    match h : matchOld old i n with
    | some (j, o) =>
      let r1 := diffNode (idTreeAt oids j) o n nid
      let mv := if j = i then []
        else [EditOp.PushRoot (rootIdAt oids j),
              EditOp.InsertBefore (rootIdAt oids i) 1]
      let r2 := diffWalk oids old (i + 1) rest r1.nextId
      ⟨r1.edits ++ mv ++ r2.edits, r1.events ++ r2.events, r2.nextId⟩
    | none =>
      let ins :=
        if old.isEmpty then [EditOp.AppendChildren (rootCount n)]
        else if i = 0 then [EditOp.InsertBefore (rootIdAt oids 0) (rootCount n)]
        else [EditOp.InsertAfter (rootIdAt oids (i - 1)) (rootCount n)]
      let r2 := diffWalk oids old (i + 1) rest (nid + countNodes n)
      ⟨createNode nid n ++ ins ++ r2.edits,
        mountEvents n ++ r2.events, r2.nextId⟩
termination_by 2 * (sizeOf old + sizeOf new)
decreasing_by
  all_goals simp_wf
  all_goals try omega
  all_goals (have hm := List.sizeOf_lt_of_mem (matchOld_mem h); omega)

end

end Reconciler

/-- Invariant carried by every reachable scheduler state: the root scope is
present under `base_scope`, and no `Removed` event is ever pending (the
source never enqueues one). -/
def SchedInv (root : Nat) (vd : VirtualDom P) : Prop :=
  vd.components.get vd.base_scope = some ⟨root, none⟩ ∧
  ∀ ev ∈ vd.event_queue, ev.event_type ≠ LifecycleType.removed

/-! ## Theorems -/

namespace Arena

theorem get_eq_none_of_stale {a : Arena} {i : ScopeIndex} (h : a.stale i) :
    a.get i = none := by
  obtain ⟨e, he, hlt⟩ := h
  unfold get
  rw [he]
  simp [Nat.ne_of_gt hlt]

theorem remove_eq_none_of_stale {a : Arena} {i : ScopeIndex} (h : a.stale i) :
    a.remove i = none := by
  obtain ⟨e, he, hlt⟩ := h
  unfold remove
  rw [he]
  simp [Nat.ne_of_gt hlt]

theorem remove_eq_some {a a' : Arena} {i : ScopeIndex} {s : Scope}
    (h : a.remove i = some (a', s)) :
    ∃ e, a.slots[i.slot]? = some e ∧ e.gen = i.gen ∧ e.val = some s ∧
      a'.slots = a.slots.set i.slot ⟨e.gen + 1, none⟩ := by
  unfold remove at h
  split at h
  next e he =>
    split at h
    next hg =>
      split at h
      next sc hv =>
        refine ⟨e, he, hg, ?_, ?_⟩
        · rw [hv]; cases h; rfl
        · cases h; rfl
      next hv => exact absurd h (by simp)
    next hg => exact absurd h (by simp)
  next he => exact absurd h (by simp)

theorem stale_of_remove {a a' : Arena} {i : ScopeIndex} {s : Scope}
    (h : a.remove i = some (a', s)) : a'.stale i := by
  obtain ⟨e, he, hg, _hv, hsl⟩ := remove_eq_some h
  have hlt : i.slot < a.slots.length := (List.getElem?_eq_some.mp he).1
  refine ⟨⟨e.gen + 1, none⟩, ?_, by show i.gen < e.gen + 1; omega⟩
  rw [hsl]
  exact List.getElem?_set_self hlt

theorem stale_applyOp {a : Arena} {i : ScopeIndex} (h : a.stale i)
    (op : ArenaOp) : (a.applyOp op).stale i := by
  obtain ⟨e, he, hlt⟩ := h
  have hslot : i.slot < a.slots.length := (List.getElem?_eq_some.mp he).1
  cases op with
  | ins s =>
    show ((a.insert s).1).stale i
    cases hf : a.findFree with
    | none =>
      refine ⟨e, ?_, hlt⟩
      simp only [insert, hf]
      simp [List.getElem?_append, hslot, he]
    | some f =>
      cases hef : a.slots[f]? with
      | none =>
        refine ⟨e, ?_, hlt⟩
        simp only [insert, hf, hef]
        simp [List.getElem?_append, hslot, he]
      | some ef =>
        by_cases hfi : f = i.slot
        · subst hfi
          have heq : ef = e := by rw [hef] at he; exact Option.some.inj he
          refine ⟨⟨ef.gen, some s⟩, ?_, by rw [heq]; exact hlt⟩
          simp only [insert, hf, hef]
          exact List.getElem?_set_self hslot
        · refine ⟨e, ?_, hlt⟩
          simp only [insert, hf, hef]
          rw [List.getElem?_set_ne hfi, he]
  | rem j =>
    cases hr : a.remove j with
    | none =>
      have hid : a.applyOp (.rem j) = a := by simp [applyOp, hr]
      rw [hid]
      exact ⟨e, he, hlt⟩
    | some p =>
      obtain ⟨a', s⟩ := p
      have hid : a.applyOp (.rem j) = a' := by simp [applyOp, hr]
      rw [hid]
      obtain ⟨ej, hej, hg, _hv, hsl⟩ := remove_eq_some hr
      by_cases hji : j.slot = i.slot
      · obtain rfl : ej = e := by rw [hji, he] at hej; exact (Option.some.inj hej).symm
        refine ⟨⟨ej.gen + 1, none⟩, ?_, by show i.gen < ej.gen + 1; omega⟩
        rw [hsl, hji]
        exact List.getElem?_set_self hslot
      · refine ⟨e, ?_, hlt⟩
        rw [hsl, List.getElem?_set_ne hji, he]

theorem stale_applyOps {a : Arena} {i : ScopeIndex} (h : a.stale i) :
    ∀ ops : List ArenaOp, (a.applyOps ops).stale i := by
  intro ops
  induction ops generalizing a with
  | nil => exact h
  | cons op rest ih => exact ih (stale_applyOp h op)

end Arena

namespace VirtualDom

theorem progress_empty {P} (vd : VirtualDom P) (h : vd.event_queue = []) :
    progress vd = (.error (), vd) := by
  unfold progress
  rw [h]
  rfl

theorem progress_dangling {P} (vd : VirtualDom P) {l : List LifecycleEvent}
    {ev : LifecycleEvent} (hq : vd.event_queue = l ++ [ev])
    (hd : vd.components.get ev.index = none) :
    progress vd = (.error (), { vd with event_queue := l }) := by
  unfold progress
  rw [hq]
  simp only [List.getLast?_concat, List.dropLast_concat, hd]

theorem progress_found {P} (vd : VirtualDom P) {l : List LifecycleEvent}
    {ev : LifecycleEvent} {s : Scope} (hq : vd.event_queue = l ++ [ev])
    (hs : vd.components.get ev.index = some s) :
    (progress vd).1 = .ok () ∧
    (progress vd).2.event_queue = l ∧
    (progress vd).2.base_scope = vd.base_scope ∧
    (progress vd).2.root_props = vd.root_props := by
  unfold progress
  rw [hq]
  simp only [List.getLast?_concat, List.dropLast_concat, hs]
  cases ev.event_type with
  | mount dst under => simp
  | propsChanged => simp
  | mounted => simp
  | removed =>
    cases hr : ({ vd with event_queue := l } : VirtualDom P).components.remove ev.index with
    | none => simp [hr]
    | some p => obtain ⟨a2, sc⟩ := p; simp [hr]
  | messaged => simp

theorem progress_found_nonremoved {P} (vd : VirtualDom P)
    {l : List LifecycleEvent} {ev : LifecycleEvent} {s : Scope}
    (hq : vd.event_queue = l ++ [ev]) (hs : vd.components.get ev.index = some s)
    (hnr : ev.event_type ≠ LifecycleType.removed) :
    progress vd = (.ok (), { vd with event_queue := l }) := by
  unfold progress
  rw [hq]
  simp only [List.getLast?_concat, List.dropLast_concat, hs]
  cases hevt : ev.event_type with
  | mount dst under => rfl
  | propsChanged => rfl
  | mounted => rfl
  | removed => rw [hevt] at hnr; exact absurd rfl hnr
  | messaged => rfl

end VirtualDom

theorem schedInv_progress {P} {root : Nat} {vd : VirtualDom P}
    (h : SchedInv root vd) : SchedInv root (VirtualDom.progress vd).2 := by
  obtain ⟨hb, hq⟩ := h
  rcases hlast : vd.event_queue.getLast? with _ | ev
  · rw [VirtualDom.progress_empty vd (List.getLast?_eq_none_iff.mp hlast)]
    exact ⟨hb, hq⟩
  · obtain ⟨ys, hys⟩ := List.getLast?_eq_some_iff.mp hlast
    have hmem : ∀ e ∈ ys, e ∈ vd.event_queue := by
      intro e he; rw [hys]; exact List.mem_append_left _ he
    have hnr : ev.event_type ≠ LifecycleType.removed :=
      hq ev (by rw [hys]; simp)
    cases hget : vd.components.get ev.index with
    | none =>
      rw [VirtualDom.progress_dangling vd hys hget]
      exact ⟨hb, fun e he => hq e (hmem e he)⟩
    | some s =>
      rw [VirtualDom.progress_found_nonremoved vd hys hget hnr]
      exact ⟨hb, fun e he => hq e (hmem e he)⟩

theorem schedInv_reaches {P} {root : Nat} {p : P} {vd : VirtualDom P}
    (h : Reaches root p vd) : SchedInv root vd := by
  induction h with
  | init =>
    refine ⟨rfl, ?_⟩
    intro ev hev
    simp only [VirtualDom.new_with_props, List.mem_singleton] at hev
    subst hev
    simp [LifecycleEvent.mount]
  | step _ ih => exact schedInv_progress ih
  | upd q _ ih => exact ih

/-- C5: starting from a freshly constructed VirtualDom, no sequence of
`progress` / `update_props` calls ever removes the root scope: looking up
`base_scope` in the arena still succeeds in every reachable state. -/
theorem base_scope_never_removed {P} {root : Nat} {p : P} {vd : VirtualDom P}
    (h : Reaches root p vd) :
    (vd.components.get vd.base_scope).isSome := by
  rw [(schedInv_reaches h).1]
  rfl

/-- Witness for C5 at a concrete reachable state: the VirtualDom built with
root token 3 and props 0, after one `progress` call. -/
theorem base_scope_never_removed_witness :
    (((VirtualDom.progress (VirtualDom.new_with_props 3 (0 : Nat))).2.components.get
        (VirtualDom.progress (VirtualDom.new_with_props 3 (0 : Nat))).2.base_scope).isSome) :=
  base_scope_never_removed (Reaches.step Reaches.init)

/-- C2: once `remove` succeeds on a handle, every later `get` or `remove`
with that handle fails, no matter what insertions and removals happen in
between (including reuse of the slot); and equality of handles requires both
the slot and the generation to agree. -/
theorem removed_handle_never_aliases (a a' : Arena) (i : ScopeIndex) (s : Scope)
    (hrem : a.remove i = some (a', s)) (ops : List ArenaOp) :
    (a'.applyOps ops).get i = none ∧
    (a'.applyOps ops).remove i = none ∧
    (∀ j k : ScopeIndex, j = k ↔ j.slot = k.slot ∧ j.gen = k.gen) := by
  have hst := Arena.stale_applyOps (Arena.stale_of_remove hrem) ops
  refine ⟨Arena.get_eq_none_of_stale hst, Arena.remove_eq_none_of_stale hst, ?_⟩
  intro j k
  constructor
  · rintro rfl; exact ⟨rfl, rfl⟩
  · rintro ⟨h1, h2⟩; cases j; cases k; simp_all

/-- Witness for C2: insert one scope, remove it, then insert another scope
(which reuses slot 0 at generation 1); the old handle `⟨0, 0⟩` still fails. -/
theorem removed_handle_never_aliases_witness :
    (Arena.empty.insert ⟨7, none⟩).1.remove ⟨0, 0⟩ =
      some (⟨[⟨1, none⟩]⟩, ⟨7, none⟩) ∧
    ((⟨[⟨1, none⟩]⟩ : Arena).applyOps [.ins ⟨8, none⟩]).get ⟨0, 0⟩ = none ∧
    ((⟨[⟨1, none⟩]⟩ : Arena).applyOps [.ins ⟨8, none⟩]).slots =
      [⟨1, some ⟨8, none⟩⟩] := by
  refine ⟨by decide, ?_, by decide⟩
  exact (removed_handle_never_aliases (Arena.empty.insert ⟨7, none⟩).1
    ⟨[⟨1, none⟩]⟩ ⟨0, 0⟩ ⟨7, none⟩ (by decide) [.ins ⟨8, none⟩]).1

/-- C1 (divergence evidence): processing a `Removed` event removes exactly
the targeted scope and nothing else. In `vdRemoved`, slot 2 holds a scope
whose `parent` is the removed slot-1 scope, and it survives the event, so
descendants are not removed (and nothing resembling an ElementId free list
exists in the source at all). -/
theorem removed_event_not_recursive :
    (VirtualDom.progress vdRemoved).1 = .ok () ∧
    (VirtualDom.progress vdRemoved).2.components.get ⟨1, 0⟩ = none ∧
    (VirtualDom.progress vdRemoved).2.components.get ⟨2, 0⟩ =
      some ⟨3, some ⟨1, 0⟩⟩ :=
  ⟨rfl, rfl, rfl⟩

/-- C3 (counterexample): a VirtualDom whose queue holds one event targeting
an absent slot. `progress` returns an error even though the queue is not
empty, and the state is changed (the event is consumed), refuting
"errors if and only if the queue is empty, in which case the state is
unchanged". -/
theorem progress_error_on_nonempty_queue :
    vdStaleEvent.event_queue ≠ [] ∧
    (VirtualDom.progress vdStaleEvent).1 = .error () ∧
    (VirtualDom.progress vdStaleEvent).2.event_queue ≠ vdStaleEvent.event_queue :=
  ⟨by decide, rfl, by decide⟩

/-- C3 (amended): `progress` pops the most recently enqueued event (the
queue always becomes its own `dropLast`); it errors exactly when the queue
is empty or the popped event's target is absent from the arena; and on an
empty queue the state is unchanged. -/
theorem progress_lifo_pop {P} (vd : VirtualDom P) :
    (VirtualDom.progress vd).2.event_queue = vd.event_queue.dropLast ∧
    ((VirtualDom.progress vd).1 = .error () ↔
      vd.event_queue = [] ∨
      ∃ ev, vd.event_queue.getLast? = some ev ∧
        vd.components.get ev.index = none) ∧
    (vd.event_queue = [] → VirtualDom.progress vd = (.error (), vd)) := by
  rcases hlast : vd.event_queue.getLast? with _ | ev
  · have h0 : vd.event_queue = [] := List.getLast?_eq_none_iff.mp hlast
    have hp := VirtualDom.progress_empty vd h0
    refine ⟨by rw [hp, h0]; rfl, ?_, fun _ => hp⟩
    rw [hp]
    simp [h0]
  · obtain ⟨ys, hys⟩ := List.getLast?_eq_some_iff.mp hlast
    have hne : vd.event_queue ≠ [] := by rw [hys]; simp
    cases hget : vd.components.get ev.index with
    | none =>
      rw [VirtualDom.progress_dangling vd hys hget]
      refine ⟨?_, ?_, fun h => absurd h hne⟩
      · show ys = vd.event_queue.dropLast
        rw [hys, List.dropLast_concat]
      · constructor
        · intro _; exact Or.inr ⟨ev, rfl, hget⟩
        · intro _; rfl
    | some s =>
      have hok := VirtualDom.progress_found vd hys hget
      refine ⟨?_, ?_, fun h => absurd h hne⟩
      · rw [hok.2.1, hys, List.dropLast_concat]
      · rw [hok.1]
        constructor
        · intro hcontra; exact absurd hcontra (by simp)
        · rintro (h | ⟨ev', hev', hget'⟩)
          · exact absurd h hne
          · injection hev' with h
            rw [← h, hget] at hget'
            exact Option.noConfusion hget'

/-- Witness for C3 (amended) at a concrete input: on an empty queue,
`progress` errors and leaves the state unchanged. -/
theorem progress_lifo_pop_witness :
    VirtualDom.progress
        { VirtualDom.new_with_props 3 (0 : Nat) with event_queue := [] } =
      (.error (), { VirtualDom.new_with_props 3 (0 : Nat) with event_queue := [] }) :=
  (progress_lifo_pop
    { VirtualDom.new_with_props 3 (0 : Nat) with event_queue := [] }).2.2 rfl

/-- C4 (divergence evidence): processing the initial `Mount` event performs
no action: the result is `Ok`, the queue is left empty (no `Mounted` event
and no child `Mount` events are pushed), and the arena is untouched (no
render occurs). -/
theorem mount_event_is_noop :
    (VirtualDom.progress (VirtualDom.new_with_props 3 (0 : Nat))).1 = .ok () ∧
    (VirtualDom.progress (VirtualDom.new_with_props 3 (0 : Nat))).2.event_queue = [] ∧
    (VirtualDom.progress (VirtualDom.new_with_props 3 (0 : Nat))).2.components =
      (VirtualDom.new_with_props 3 (0 : Nat)).components :=
  ⟨rfl, rfl, rfl⟩

/-- C6: when the popped event's target is absent or stale, `progress` fails
with an error, the offending event has been consumed (dropped, not
retried), and the arena, the remaining queued events, the base scope and
the props are untouched. -/
theorem dangling_event_dropped {P} (vd : VirtualDom P)
    (l : List LifecycleEvent) (ev : LifecycleEvent)
    (hq : vd.event_queue = l ++ [ev])
    (hd : vd.components.get ev.index = none) :
    (VirtualDom.progress vd).1 = .error () ∧
    (VirtualDom.progress vd).2.components = vd.components ∧
    (VirtualDom.progress vd).2.event_queue = l ∧
    (VirtualDom.progress vd).2.base_scope = vd.base_scope ∧
    (VirtualDom.progress vd).2.root_props = vd.root_props := by
  rw [VirtualDom.progress_dangling vd hq hd]
  exact ⟨rfl, rfl, rfl, rfl, rfl⟩

/-- Witness for C6 at the concrete stale-event fixture. -/
theorem dangling_event_dropped_witness :
    (VirtualDom.progress vdStaleEvent).1 = .error () ∧
    (VirtualDom.progress vdStaleEvent).2.components = vdStaleEvent.components ∧
    (VirtualDom.progress vdStaleEvent).2.event_queue = [] :=
  let h := dangling_event_dropped vdStaleEvent [] ⟨⟨5, 0⟩, .mounted⟩ rfl rfl
  ⟨h.1, h.2.1, h.2.2.1⟩

/-- C7 (divergence evidence): `update_props` is the identity on the
VirtualDom: in particular no lifecycle event is enqueued and the stored
root props are not even replaced. -/
theorem update_props_is_noop {P} (vd : VirtualDom P) (q : P) :
    VirtualDom.update_props vd q = vd ∧
    (VirtualDom.update_props vd q).event_queue = vd.event_queue :=
  ⟨rfl, rfl⟩

namespace Web

/-- C9: `apply_edits` consumes its edit list strictly in order (it is an
append homomorphism), and each of the sixteen edit kinds is dispatched to
the corresponding interpreter operation, with `event_bubbles` consulted for
both listener edits. -/
theorem apply_edits_in_order_dispatches_all (b : String → Bool) :
    (∀ xs ys : List DomEdit,
      apply_edits b (xs ++ ys) = apply_edits b xs ++ apply_edits b ys) ∧
    (∀ root, apply_edits b [.PushRoot root] = [.PushRoot root]) ∧
    (apply_edits b [.PopRoot] = [.PopRoot]) ∧
    (∀ many, apply_edits b [.AppendChildren many] = [.AppendChildren many]) ∧
    (∀ root m, apply_edits b [.ReplaceWith root m] = [.ReplaceWith root m]) ∧
    (∀ root n, apply_edits b [.InsertAfter root n] = [.InsertAfter root n]) ∧
    (∀ root n, apply_edits b [.InsertBefore root n] = [.InsertBefore root n]) ∧
    (∀ root, apply_edits b [.Remove root] = [.Remove root]) ∧
    (∀ tag root, apply_edits b [.CreateElement tag root] = [.CreateElement tag root]) ∧
    (∀ tag root ns,
      apply_edits b [.CreateElementNs tag root ns] = [.CreateElementNs tag root ns]) ∧
    (∀ root, apply_edits b [.CreatePlaceholder root] = [.CreatePlaceholder root]) ∧
    (∀ text root, apply_edits b [.CreateTextNode text root] = [.CreateTextNode text root]) ∧
    (∀ en root sc, apply_edits b [.NewEventListener en root sc] =
      [.NewEventListener en root (b en)]) ∧
    (∀ root event, apply_edits b [.RemoveEventListener root event] =
      [.RemoveEventListener root event (b event)]) ∧
    (∀ root text, apply_edits b [.SetText root text] = [.SetText root text]) ∧
    (∀ root field value ns,
      apply_edits b [.SetAttribute root field value ns] = [.SetAttribute root field value ns]) ∧
    (∀ root name ns,
      apply_edits b [.RemoveAttribute root name ns] = [.RemoveAttribute root name ns]) := by
  refine ⟨?_, fun _ => rfl, rfl, fun _ => rfl, fun _ _ => rfl, fun _ _ => rfl,
    fun _ _ => rfl, fun _ => rfl, fun _ _ => rfl, fun _ _ _ => rfl, fun _ => rfl,
    fun _ _ => rfl, fun _ _ _ => rfl, fun _ _ => rfl, fun _ _ => rfl,
    fun _ _ _ _ => rfl, fun _ _ _ => rfl⟩
  intro xs ys
  induction xs with
  | nil => rfl
  | cons e rest ih =>
    show apply_edits b (e :: (rest ++ ys)) = apply_edits b (e :: rest) ++ apply_edits b ys
    simp only [apply_edits, ih, List.cons_append]

set_option maxHeartbeats 4000000 in
/-- C10: on every string in the supported set, `event_name_from_typ` returns
its input unchanged; on every string outside that set it panics instead of
returning (modelled as `none`). -/
theorem event_name_from_typ_id_on_supported :
    (∀ s ∈ supportedEventNames, event_name_from_typ s = some s) ∧
    (∀ s : String, s ∉ supportedEventNames → event_name_from_typ s = none) := by
  constructor
  · decide
  · intro s hs
    rw [event_name_from_typ.eq_def]
    split
    all_goals first
      | rfl
      | exact absurd (by decide) hs

/-- Witness for C10 at concrete inputs: a supported name maps to itself and
an unsupported one panics (`none`). -/
theorem event_name_from_typ_id_on_supported_witness :
    event_name_from_typ "click" = some "click" ∧
    event_name_from_typ "clack" = none :=
  ⟨event_name_from_typ_id_on_supported.1 "click" (by decide),
   event_name_from_typ_id_on_supported.2 "clack" (by decide)⟩

end Web

namespace Reconciler

theorem diffAttrs_self (id : Nat) (l : List Attr) : diffAttrs id l l = [] := by
  unfold diffAttrs
  have h1 : l.filter (fun a => ! l.any (fun b => b.name == a.name)) = [] := by
    apply List.filter_eq_nil_iff.mpr
    intro a ha hcontra
    have hany : l.any (fun b => b.name == a.name) = false := by
      simpa using hcontra
    have := List.any_eq_false.mp hany a ha
    simp at this
  have h2 : l.filter
      (fun b => ! l.any (fun a => a.name == b.name && a.value == b.value)) = [] := by
    apply List.filter_eq_nil_iff.mpr
    intro b hb hcontra
    have hany : l.any (fun a => a.name == b.name && a.value == b.value) = false := by
      simpa using hcontra
    have := List.any_eq_false.mp hany b hb
    simp at this
  rw [h1, h2]
  rfl

theorem diffListeners_self (id : Nat) (l : List String) :
    diffListeners id l l = [] := by
  unfold diffListeners
  have h1 : l.filter (fun x => ! l.contains x) = [] := by
    apply List.filter_eq_nil_iff.mpr
    intro x hx hcontra
    simp at hcontra
    exact hcontra hx
  rw [h1]
  rfl

theorem matchedByNew_self {l : List VirtualNode} {j : Nat} {o : VirtualNode}
    (h : l[j]? = some o) : matchedByNew l j o = true := by
  have hmem : o ∈ l := by
    obtain ⟨hlt, heq⟩ := List.getElem?_eq_some.mp h
    exact heq ▸ List.getElem_mem hlt
  unfold matchedByNew
  cases hk : nodeKey o with
  | some k =>
    rw [List.any_eq_true]
    exact ⟨o, hmem, by simp [hk]⟩
  | none =>
    rw [h]
    simp [hk]

theorem removal_filter_self (l : List VirtualNode) :
    l.enum.filter (fun p => ! matchedByNew l p.1 p.2) = [] := by
  apply List.filter_eq_nil_iff.mpr
  rintro ⟨j, o⟩ hmem
  have h : l[j]? = some o := List.mk_mem_enum_iff_getElem?.mp hmem
  simp [matchedByNew_self h]

theorem removalEdits_self (oids : List IdTree) (l : List VirtualNode) :
    removalEdits oids l l = [] := by
  unfold removalEdits
  rw [removal_filter_self]
  rfl

theorem removalEvents_self (l : List VirtualNode) :
    removalEvents l l = [] := by
  unfold removalEvents
  rw [removal_filter_self]
  rfl

theorem matchOld_self {l : List VirtualNode} {i : Nat} {n : VirtualNode}
    (h : l[i]? = some n) : matchOld l i n = some (i, n) := by
  unfold matchOld positionalMatch
  rw [h]
  simp

/-- Diffing any tree (or child list) against itself produces no edits, no
events, and consumes no ElementIds — proved simultaneously for the three
mutually recursive diff functions by strong induction on size. -/
theorem diff_self_all (m : Nat) :
    (∀ (oid : IdTree) (t : VirtualNode) (nid : Nat), sizeOf t ≤ m →
      diffNode oid t t nid = ⟨[], [], nid⟩) ∧
    (∀ (oids : List IdTree) (L : List VirtualNode) (i nid : Nat), sizeOf L ≤ m →
      diffWalk oids L i (L.drop i) nid = ⟨[], [], nid⟩) ∧
    (∀ (oids : List IdTree) (l : List VirtualNode) (nid : Nat), sizeOf l ≤ m →
      diffChildren oids l l nid = ⟨[], [], nid⟩) := by
  induction m using Nat.strong_induction_on with
  | _ m IH =>
  have hwalk : ∀ (oids : List IdTree) (L : List VirtualNode) (i nid : Nat),
      sizeOf L ≤ m → diffWalk oids L i (L.drop i) nid = ⟨[], [], nid⟩ := by
    intro oids L
    have aux : ∀ (k i nid : Nat), L.length - i ≤ k → sizeOf L ≤ m →
        diffWalk oids L i (L.drop i) nid = ⟨[], [], nid⟩ := by
      intro k
      induction k with
      | zero =>
        intro i nid hk _
        have hnil : L.drop i = [] := List.drop_eq_nil_of_le (by omega)
        rw [hnil]
        simp [diffWalk]
      | succ k ihk =>
        intro i nid hk hL
        cases hdrop : L.drop i with
        | nil => simp [diffWalk]
        | cons n rest =>
          have hLi : L[i]? = some n := by
            have hd0 := List.getElem?_drop L i 0
            rw [hdrop] at hd0
            simpa using hd0.symm
          have hrest : L.drop (i + 1) = rest := by
            have hdd := List.drop_drop 1 i L
            rw [hdrop] at hdd
            simpa using hdd.symm
          have hlen : i < L.length := (List.getElem?_eq_some.mp hLi).1
          have hnmem : n ∈ L := by
            obtain ⟨hlt, heq⟩ := List.getElem?_eq_some.mp hLi
            exact heq ▸ List.getElem_mem hlt
          have hnsize : sizeOf n < sizeOf L := List.sizeOf_lt_of_mem hnmem
          have hnode : diffNode (idTreeAt oids i) n n nid = ⟨[], [], nid⟩ :=
            (IH (sizeOf n) (by omega)).1 _ n nid (le_refl _)
          have hrec : diffWalk oids L (i + 1) rest nid = ⟨[], [], nid⟩ := by
            have := ihk (i + 1) nid (by omega) hL
            rwa [hrest] at this
          rw [diffWalk]
          split
          next j o hm =>
            rw [matchOld_self hLi] at hm
            obtain ⟨h1, h2⟩ := Prod.mk.inj (Option.some.inj hm)
            subst h1
            subst h2
            simp [hnode, hrec]
          next hm =>
            rw [matchOld_self hLi] at hm
            exact Option.noConfusion hm
    intro i nid hL
    exact aux (L.length - i) i nid (le_refl _) hL
  have hchild : ∀ (oids : List IdTree) (l : List VirtualNode) (nid : Nat),
      sizeOf l ≤ m → diffChildren oids l l nid = ⟨[], [], nid⟩ := by
    intro oids l nid hl
    have hw := hwalk oids l 0 nid hl
    rw [List.drop_zero] at hw
    rw [diffChildren]
    simp [hw, removalEdits_self, removalEvents_self]
  have hnode : ∀ (oid : IdTree) (t : VirtualNode) (nid : Nat),
      sizeOf t ≤ m → diffNode oid t t nid = ⟨[], [], nid⟩ := by
    intro oid t nid ht
    cases t with
    | text s => simp [diffNode]
    | element tag attrs ls key cs =>
      have hcs : sizeOf cs < m + 1 := by
        have : sizeOf cs < sizeOf (VirtualNode.element tag attrs ls key cs) := by
          simp
        omega
      have hc : diffChildren (IdTree.kids oid) cs cs nid = ⟨[], [], nid⟩ := by
        rcases Nat.lt_or_ge (sizeOf cs) m with hlt | hge
        · exact (IH (sizeOf cs) hlt).2.2 _ cs nid (le_refl _)
        · exact hchild _ cs nid (by omega)
      simp [diffNode, hc, diffAttrs_self, diffListeners_self]
    | component sc p => simp [diffNode]
    | fragment cs =>
      have hc : diffChildren (IdTree.kids oid) cs cs nid = ⟨[], [], nid⟩ := by
        rcases Nat.lt_or_ge (sizeOf cs) m with hlt | hge
        · exact (IH (sizeOf cs) hlt).2.2 _ cs nid (le_refl _)
        · have : sizeOf cs < sizeOf (VirtualNode.fragment cs) := by simp
          exact hchild _ cs nid (by omega)
      simp [diffNode, hc]
    | placeholder => simp [diffNode]
  exact ⟨hnode, hwalk, hchild⟩

/-- C8: diffing any VirtualNode tree against an identical copy of itself
yields an empty EditScript: no EditOps are emitted (regardless of the old
tree's ElementId assignment or the fresh-id counter). -/
theorem diff_identical_trees_empty (oid : IdTree) (t : VirtualNode) (nid : Nat) :
    (diffNode oid t t nid).edits = [] := by
  rw [(diff_self_all (sizeOf t)).1 oid t nid (le_refl _)]

/-- Non-vacuity check (spec §8 scenario): changing a text node's content
emits exactly one SetText addressed at the old node's ElementId. -/
theorem diffNode_settext_scenario :
    diffNode (IdTree.node 2 []) (.text "hello") (.text "world") 7 =
      ⟨[.SetText 2 "world"], [], 7⟩ := by
  simp [diffNode, IdTree.rootId]

end Reconciler

end Dioxus
